import Mathlib

set_option maxRecDepth 100000

/-!
Verification of the Dynamo-style replicated key-value store node
(`homework/kv-replication/solution/node.py`).

The Python source is shallowly embedded: Python dicts become insertion-ordered
association lists, floats become exact rationals (ℚ), and code paths that can
raise (`assert`, `KeyError`, `IndexError`, `NameError`) return `Except String`.
-/

abbrev Addr := String
abbrev Key := String
abbrev Value := String

/-- `VectorClock` (node.py line 19): a Python dict from node address to counter,
modelled as an association list in insertion order with distinct keys. -/
abbrev VectorClock := List (Addr × Nat)

/-- `VersionedValue` (node.py line 20). -/
abbrev VersionedValue := VectorClock × Value

/-- A ring point (node.py line 28): `(position, owner address)`.  Positions are
Python floats produced by `random.random()`; modelled as exact rationals. -/
abbrev Point := ℚ × Addr

/-- Python `d[k]` read access on a dict modelled as an association list:
`none` corresponds to a `KeyError`. -/
def dictGet {β : Type} (d : List (String × β)) (k : String) : Option β :=
  (d.find? (fun p => p.1 == k)).map (fun p => p.2)

/-- Python `d[k] = v`: updates the existing entry in place (dicts preserve
insertion order) or appends a fresh one. -/
def dictSet {β : Type} (d : List (String × β)) (k : String) (v : β) :
    List (String × β) :=
  if (d.find? (fun p => p.1 == k)).isSome then
    d.map (fun p => if p.1 == k then (k, v) else p)
  else
    d ++ [(k, v)]

/-- Python `d.pop(k)`. -/
def dictRemove {β : Type} (d : List (String × β)) (k : String) :
    List (String × β) :=
  d.filter (fun p => !(p.1 == k))

/- ### SHA-256 (external collaborator: Python `hashlib.sha256`)
`Node.bytes_to_float` (node.py line 56) calls `sha256(b.encode('utf-8'))`.
The digest function is the standard FIPS 180-4 SHA-256, embedded here as an
executable pure function on byte lists so that concrete keys can be evaluated. -/

/-- UTF-8 encoding of one character, as in Python `str.encode('utf-8')`. -/
def utf8EncodeChar (c : Char) : List Nat :=
  let n := c.toNat
  if n < 0x80 then [n]
  else if n < 0x800 then [0xC0 + n / 0x40, 0x80 + n % 0x40]
  else if n < 0x10000 then
    [0xE0 + n / 0x1000, 0x80 + (n / 0x40) % 0x40, 0x80 + n % 0x40]
  else
    [0xF0 + n / 0x40000, 0x80 + (n / 0x1000) % 0x40,
     0x80 + (n / 0x40) % 0x40, 0x80 + n % 0x40]

/-- UTF-8 encoding of a string as a byte list. -/
def utf8Encode (s : String) : List Nat :=
  (s.data.map utf8EncodeChar).flatten

/-- 32-bit modular addition. -/
def add32 (a b : Nat) : Nat := (a + b) % 2 ^ 32

/-- 32-bit right rotation (input assumed `< 2^32`). -/
def rotr32 (n x : Nat) : Nat := (x >>> n) ||| ((x <<< (32 - n)) % 2 ^ 32)

/-- SHA-256 `Ch(e,f,g)`. -/
def shaCh (e f g : Nat) : Nat := (e &&& f) ^^^ ((e ^^^ 0xffffffff) &&& g)

/-- SHA-256 `Maj(a,b,c)`. -/
def shaMaj (a b c : Nat) : Nat := (a &&& b) ^^^ (a &&& c) ^^^ (b &&& c)

/-- SHA-256 `Σ₀`. -/
def sigB0 (x : Nat) : Nat := rotr32 2 x ^^^ rotr32 13 x ^^^ rotr32 22 x

/-- SHA-256 `Σ₁`. -/
def sigB1 (x : Nat) : Nat := rotr32 6 x ^^^ rotr32 11 x ^^^ rotr32 25 x

/-- SHA-256 `σ₀`. -/
def sigS0 (x : Nat) : Nat := rotr32 7 x ^^^ rotr32 18 x ^^^ (x >>> 3)

/-- SHA-256 `σ₁`. -/
def sigS1 (x : Nat) : Nat := rotr32 17 x ^^^ rotr32 19 x ^^^ (x >>> 10)

/-- The 64 SHA-256 round constants. -/
def sha256K : List Nat :=
  [1116352408, 1899447441, 3049323471, 3921009573, 961987163,
   1508970993, 2453635748, 2870763221, 3624381080, 310598401,
   607225278, 1426881987, 1925078388, 2162078206, 2614888103,
   3248222580, 3835390401, 4022224774, 264347078, 604807628,
   770255983, 1249150122, 1555081692, 1996064986, 2554220882,
   2821834349, 2952996808, 3210313671, 3336571891, 3584528711,
   113926993, 338241895, 666307205, 773529912, 1294757372,
   1396182291, 1695183700, 1986661051, 2177026350, 2456956037,
   2730485921, 2820302411, 3259730800, 3345764771, 3516065817,
   3600352804, 4094571909, 275423344, 430227734, 506948616,
   659060556, 883997877, 958139571, 1322822218, 1537002063,
   1747873779, 1955562222, 2024104815, 2227730452, 2361852424,
   2428436474, 2756734187, 3204031479, 3329325298]

/-- Working state of the SHA-256 compression function. -/
structure Sha8 where
  a : Nat
  b : Nat
  c : Nat
  d : Nat
  e : Nat
  f : Nat
  g : Nat
  h : Nat

/-- The SHA-256 initial hash value. -/
def sha256H0 : Sha8 :=
  ⟨1779033703, 3144134277, 1013904242, 2773480762,
   1359893119, 2600822924, 528734635, 1541459225⟩

/-- Big-endian interpretation of a byte list as an unsigned integer. -/
def beInterp (bs : List Nat) : Nat :=
  bs.foldl (fun acc b => acc * 256 + b) 0

/-- Little-endian interpretation of a byte list as an unsigned integer
(Python `struct.unpack('L', ...)` on the x86-64/Linux reference platform:
8-byte native-endian unsigned long). -/
def leInterp (bs : List Nat) : Nat :=
  bs.foldr (fun b acc => acc * 256 + b) 0

/-- `n`-byte big-endian encoding of `x`. -/
def beBytes (n x : Nat) : List Nat :=
  (List.range n).map (fun i => x / 256 ^ (n - 1 - i) % 256)

/-- SHA-256 message padding: append `0x80`, zero-pad to 56 mod 64, then the
64-bit big-endian bit length. -/
def sha256Pad (msg : List Nat) : List Nat :=
  let L := msg.length
  let k := (56 + 64 - (L + 1) % 64) % 64
  msg ++ [0x80] ++ List.replicate k 0 ++ beBytes 8 (8 * L)

/-- Message schedule: the 16 block words extended to 64. -/
def sha256Schedule (w16 : List Nat) : List Nat :=
  (List.range 48).foldl
    (fun w _ =>
      w ++ [add32 (add32 (sigS1 (w.getD (w.length - 2) 0)) (w.getD (w.length - 7) 0))
                  (add32 (sigS0 (w.getD (w.length - 15) 0)) (w.getD (w.length - 16) 0))])
    w16

/-- One round of the SHA-256 compression function. -/
def sha256Round (s : Sha8) (k w : Nat) : Sha8 :=
  let t1 := add32 s.h (add32 (sigB1 s.e) (add32 (shaCh s.e s.f s.g) (add32 k w)))
  let t2 := add32 (sigB0 s.a) (shaMaj s.a s.b s.c)
  ⟨add32 t1 t2, s.a, s.b, s.c, add32 s.d t1, s.e, s.f, s.g⟩

/-- Process one 64-byte block. -/
def sha256Block (h : Sha8) (block : List Nat) : Sha8 :=
  let w16 := (List.range 16).map (fun i => beInterp ((block.drop (4 * i)).take 4))
  let w := sha256Schedule w16
  let s := (List.range 64).foldl (fun s t => sha256Round s (sha256K.getD t 0) (w.getD t 0)) h
  ⟨add32 h.a s.a, add32 h.b s.b, add32 h.c s.c, add32 h.d s.d,
   add32 h.e s.e, add32 h.f s.f, add32 h.g s.g, add32 h.h s.h⟩

/-- Serialize one 32-bit word to 4 big-endian bytes. -/
def wordBytes (w : Nat) : List Nat :=
  [w / 2 ^ 24 % 256, w / 2 ^ 16 % 256, w / 2 ^ 8 % 256, w % 256]

/-- SHA-256 digest (32 bytes) of a byte list. -/
def sha256Digest (msg : List Nat) : List Nat :=
  let padded := sha256Pad msg
  let blocks := (List.range (padded.length / 64)).map
    (fun i => (padded.drop (64 * i)).take 64)
  let h := blocks.foldl sha256Block sha256H0
  ([h.a, h.b, h.c, h.d, h.e, h.f, h.g, h.h].map wordBytes).flatten

/-- `sha256(key.encode('utf-8')).digest()` as used in `Node.bytes_to_float`. -/
def sha256Str (s : String) : List Nat :=
  sha256Digest (utf8Encode s)

/- ### Partitioner: `Node.bytes_to_float` and `Node.get_replicas_addrs` -/

/-- `Node.bytes_to_float` (node.py line 56):
`float(unpack('L', sha256(b.encode('utf-8')).digest()[:8])[0]) / 2 ** 64`.
`struct.unpack('L', ...)` reads the first 8 digest bytes as a native-endian
(little-endian on the x86-64/Linux reference platform) unsigned long. -/
def bytes_to_float (b : String) : ℚ :=
  mkRat (leInterp ((sha256Str b).take 8)) (2 ^ 64)

/-- Modelled from the spec: `hashToRing` per §4.2 interprets the fixed-width
digest prefix as an unsigned **big-endian** integer before normalizing.
Named separately so it can be compared with the source's `bytes_to_float`. -/
def bytes_to_float_spec (b : String) : ℚ :=
  mkRat (beInterp ((sha256Str b).take 8)) (2 ^ 64)

/-- Python `bisect.bisect_right(lst, x)` on a sorted list: the insertion point
to the right of existing entries, i.e. the index of the first element strictly
greater than `x` (node.py line 63 applies it to the sorted position list). -/
def bisect_right (l : List ℚ) (x : ℚ) : Nat :=
  (l.takeWhile (fun p => decide (p ≤ x))).length

/-- `Node.NUM_REPLICAS` (node.py line 27). -/
def NUM_REPLICAS : Nat := 3

/-- `Node.get_replicas_addrs` (node.py lines 60-64):
`i = bisect_right([x[0] for x in points], bytes_to_float(key))`;
`return [point[1] for point in points[i:] + points[:i]]`.
Note: returns the owner of **every** point (callers slice `[:NUM_REPLICAS]`),
with no deduplication of owners. -/
def get_replicas_addrs (key : Key) (points : List Point) : List Addr :=
  let i := bisect_right (points.map Prod.fst) (bytes_to_float key)
  ((points.drop i) ++ (points.take i)).map Prod.snd

/- ### Ring membership: `Node.merge_points` -/

/-- The order Python uses to `sort()` a list of `(float, str)` tuples:
lexicographic, position first, then owner address. -/
def pointLe (a b : Point) : Prop :=
  a.1 < b.1 ∨ (a.1 = b.1 ∧ a.2 ≤ b.2)

instance : DecidableRel pointLe := fun a b => by
  unfold pointLe; infer_instance

instance : IsTotal Point pointLe where
  total a b := by
    rcases lt_trichotomy a.1 b.1 with h | h | h
    · exact Or.inl (Or.inl h)
    · rcases le_total a.2 b.2 with h2 | h2
      · exact Or.inl (Or.inr ⟨h, h2⟩)
      · exact Or.inr (Or.inr ⟨h.symm, h2⟩)
    · exact Or.inr (Or.inl h)

instance : IsTrans Point pointLe where
  trans a b c hab hbc := by
    rcases hab with h1 | ⟨h1, h1'⟩ <;> rcases hbc with h2 | ⟨h2, h2'⟩
    · exact Or.inl (h1.trans h2)
    · exact Or.inl (h2 ▸ h1)
    · exact Or.inl (h1 ▸ h2)
    · exact Or.inr ⟨h1.trans h2, h1'.trans h2'⟩

instance : IsAntisymm Point pointLe where
  antisymm a b hab hba := by
    rcases hab with h1 | ⟨h1, h1'⟩ <;> rcases hba with h2 | ⟨h2, h2'⟩
    · exact absurd h2 (asymm h1)
    · exact absurd h1 (h2 ▸ lt_irrefl _)
    · exact absurd h2 (h1 ▸ lt_irrefl _)
    · exact Prod.ext h1 (le_antisymm h1' h2')

/-- `Node.merge_points` (node.py lines 48-51): extend the local point list with
the remote one, dedup through `set()`, and `sort()`.  Since the result is
sorted, the arbitrary iteration order of the Python `set` is immaterial; any
dedup followed by a sort under the total tuple order yields the same list. -/
def merge_points (local_points other_points : List Point) : List Point :=
  List.insertionSort pointLe ((local_points ++ other_points).dedup)

/- ### Vector Clock Engine -/

/-- `Node.simplify_vector_clock` (node.py lines 66-69):
`sorted(vector_clock.items(), key=lambda v: v[1])` (a stable sort by counter),
then projection to the **addresses** `v[0]`.  The counters themselves are
discarded. -/
def simplify_vector_clock (vector_clock : VectorClock) : List Addr :=
  (vector_clock.foldl
    (fun acc p => acc.takeWhile (fun q => q.2 ≤ p.2) ++ p :: acc.dropWhile (fun q => q.2 ≤ p.2))
    []).map Prod.fst

/-- Python `<=` on strings: lexicographic by code point. -/
def pyStrLe (a b : String) : Bool :=
  a == b || decide (a < b)

/-- `Node.cmp_vector_clocks` (node.py lines 71-83).  The source comment says
`-1 <=, 1 =>, 0 ==` and `assume all comparable and same length for now`; the
`assert len(...) == len(...)` is modelled as an `Except.error`.  Note the
comparison is between the sorted-by-counter **address** sequences. -/
def cmp_vector_clocks (vector1 vector2 : VectorClock) : Except String Int :=
  if vector1.length ≠ vector2.length then .error "AssertionError" else
  if ((simplify_vector_clock vector1).zip (simplify_vector_clock vector2)).all
      (fun p => p.1 == p.2) then .ok 0
  else if ((simplify_vector_clock vector1).zip (simplify_vector_clock vector2)).all
      (fun p => pyStrLe p.1 p.2) then .ok (-1)
  else .ok 1

/-- `Node.get_max_vector_clock` (node.py lines 85-92): start from the first
clock, replace the running maximum whenever `cmp_vector_clocks` returns a
negative result.  The empty list trips `assert len(vector_clocks) != 0`. -/
def get_max_vector_clock (vector_clocks : List VectorClock) :
    Except String VectorClock :=
  match vector_clocks with
  | [] => .error "AssertionError"
  | c :: _ =>
    vector_clocks.foldlM
      (fun m v => do
        let r ← cmp_vector_clocks m v
        pure (if r < 0 then v else m))
      c

/-- Python `dict ==` on two clocks: equal key sets with equal values,
independent of insertion order (used by the filter in `resolve_conflicts`). -/
def pyDictEq (c1 c2 : VectorClock) : Bool :=
  c1.length == c2.length && c1.all (fun p => dictGet c2 p.1 == some p.2)

/-- `Node.resolve_conflicts` (node.py lines 94-101): keep the single versioned
value whose clock equals the maximum clock (`[...][0]` on the filter). -/
def resolve_conflicts (versioned_values : List VersionedValue) :
    Except String (List VersionedValue) :=
  if versioned_values.length == 0 then .ok []
  else
    match get_max_vector_clock (versioned_values.map Prod.fst) with
    | .error e => .error e
    | .ok max_clock =>
      match (versioned_values.filter (fun v => pyDictEq v.1 max_clock)).head? with
      | some v => .ok [v]
      | none => .error "IndexError"

/-- `Node.update_my_vector_clock` (node.py lines 103-108): fold the incoming
clock in by pointwise `max`; an address missing from the local clock hits
`assert False  # we missed a join`. -/
def update_my_vector_clock (self_clock : VectorClock)
    (other_vector_clock : VectorClock) : Except String VectorClock :=
  match other_vector_clock with
  | [] => .ok self_clock
  | (addr, counter) :: rest =>
    match dictGet self_clock addr with
    | none => .error "AssertionError: we missed a join"
    | some c =>
      update_my_vector_clock (dictSet self_clock addr (max c counter)) rest

/-- Modelled from the spec (§4.1): `a` is BEFORE `b` iff for every address
`a[addr] ≤ b[addr]` (a missing entry counting as 0) and at least one
inequality is strict.  Used to compare the source's comparison against the
specified per-address pointwise dominance. -/
def vc_before_spec (a b : VectorClock) : Bool :=
  a.all (fun p => decide (p.2 ≤ ((dictGet b p.1).getD 0))) &&
  (a.any (fun p => decide (p.2 < ((dictGet b p.1).getD 0))) ||
   b.any (fun p => decide (((dictGet a p.1).getD 0) < p.2)))

/- ### Quorum Coordinator: node state and the `Node.receive` branches -/

/-- The mutable fields of `Node` (node.py lines 27-36).  All the pending-request
tables are keyed by the bare key string, exactly as in the source. -/
structure NodeState where
  points : List Point
  storage : List (Key × VersionedValue)
  my_addr : Addr
  addr_to_name : List (Addr × String)
  vector_clock : VectorClock
  waiting_get_keys : List (Key × List (Option VersionedValue))
  waiting_get_keys_quorum : List (Key × Nat)
  waiting_put : List (Key × Nat)
  waiting_put_addr : List (Key × Addr)

/-- The body of a PUT-family message (node.py lines 156-166, 232-258):
`{key, value, metadata?, quorum}` plus the `versioned_value` field the
coordinator adds in place before fanning out. -/
structure PutBody where
  key : Key
  value : Value
  metadata : Option VectorClock
  quorum : Nat
  versioned_value : Option VersionedValue

/-- The message kinds the modelled handlers emit. -/
inductive Msg where
  | getGlobal (key : Key)
  | getGlobalResp (key : Key) (vv : Option VersionedValue)
  | getResp (values : List Value) (metadata : List VectorClock)
  | putForCoordinator (body : PutBody)
  | putGlobal (body : PutBody)
  | putGlobalResp (body : PutBody)
  | putForCoordinatorResp (clock : VectorClock)
  | putResp (clock : VectorClock)
  | lookupResp (entries : List (String × Addr))

/-- An outbound effect of a handler: `ctx.send(m, dst)` or `ctx.send_local(m)`. -/
inductive OutMsg where
  | send (dst : Addr) (m : Msg)
  | sendLocal (m : Msg)

/-- The local `GET` branch (node.py lines 146-154): fan a fetch out to the
first `NUM_REPLICAS` replica addresses and (re)initialize the pending tables
for this key — note `waiting_get_keys[key] = []` overwrites any entry an
earlier outstanding GET on the same key had. -/
def handle_GET (st : NodeState) (key : Key) (quorum : Nat) :
    NodeState × List OutMsg :=
  let addrs := (get_replicas_addrs key st.points).take NUM_REPLICAS
  ({ st with
      waiting_get_keys := dictSet st.waiting_get_keys key [],
      waiting_get_keys_quorum := dictSet st.waiting_get_keys_quorum key quorum },
   addrs.map (fun a => OutMsg.send a (Msg.getGlobal key)))

/-- The local `PUT` branch (node.py lines 163-166):
`coordinator_addr = self.get_replicas_addrs(key)[0]` — indexing `[0]` on an
empty replica list raises `IndexError`. -/
def handle_PUT (st : NodeState) (body : PutBody) :
    Except String (NodeState × List OutMsg) :=
  match (get_replicas_addrs body.key st.points).head? with
  | none => .error "IndexError: list index out of range"
  | some c => .ok (st, [OutMsg.send c (Msg.putForCoordinator body)])

/-- The local `LOOKUP` branch (node.py lines 171-173): reply with
`[(addr_to_name[addr], addr)]` for the first `NUM_REPLICAS` replica addresses;
a replica address missing from the directory raises `KeyError`. -/
def handle_LOOKUP (st : NodeState) (key : Key) :
    Except String (NodeState × List OutMsg) := do
  let addrs := (get_replicas_addrs key st.points).take NUM_REPLICAS
  let entries ← addrs.mapM (fun a =>
    match dictGet st.addr_to_name a with
    | none => Except.error "KeyError"
    | some n => pure (n, a))
  pure (st, [OutMsg.sendLocal (Msg.lookupResp entries)])

/-- The `get global resp` branch (node.py lines 217-230): append the reply to
the pending list for the key; when exactly `quorum` replies are in, drop the
absence markers, resolve conflicts, answer the client with
`{values, metadata}` lists, and discard the pending entry. -/
def handle_get_global_resp (st : NodeState) (key : Key)
    (versioned_value : Option VersionedValue) :
    Except String (NodeState × List OutMsg) :=
  match dictGet st.waiting_get_keys key with
  | none => .ok (st, [])
  | some vvs =>
    let vvs := vvs ++ [versioned_value]
    match dictGet st.waiting_get_keys_quorum key with
    | none => .error "KeyError"
    | some quorum =>
      if vvs.length == quorum then
        match resolve_conflicts (vvs.reduceOption) with
        | .error e => .error e
        | .ok resolved =>
          .ok ({ st with
                  waiting_get_keys := dictRemove st.waiting_get_keys key,
                  waiting_get_keys_quorum := dictRemove st.waiting_get_keys_quorum key },
               [OutMsg.sendLocal (Msg.getResp (resolved.map (fun v => v.2))
                                              (resolved.map (fun v => v.1)))])
      else
        .ok ({ st with waiting_get_keys := dictSet st.waiting_get_keys key vvs }, [])

/-- The `put for coordinator` branch (node.py lines 232-245): merge the
optional prior metadata into the local clock, bump the coordinator's own
counter (`self.vector_clock[self.my_addr] += 1`, a `KeyError` if the local
address is unknown), stamp the value, reset `waiting_put[key] = 0` and
`waiting_put_addr[key] = msg.sender` — clobbering any outstanding PUT on the
same key — and fan the stamped value out to the replicas. -/
def handle_put_for_coordinator (st : NodeState) (sender : Addr)
    (body : PutBody) : Except String (NodeState × List OutMsg) :=
  match (match body.metadata with
         | some md => update_my_vector_clock st.vector_clock md
         | none => .ok st.vector_clock) with
  | .error e => .error e
  | .ok vc1 =>
    match dictGet vc1 st.my_addr with
    | none => .error "KeyError"
    | some c =>
      let vc2 := dictSet vc1 st.my_addr (c + 1)
      let addrs := (get_replicas_addrs body.key st.points).take NUM_REPLICAS
      let stamped := { body with versioned_value := some (vc2, body.value) }
      .ok ({ st with
              vector_clock := vc2,
              waiting_put := dictSet st.waiting_put body.key 0,
              waiting_put_addr := dictSet st.waiting_put_addr body.key sender },
           addrs.map (fun a => OutMsg.send a (Msg.putGlobal stamped)))

/-- The `put global` branch (node.py lines 246-250): unconditionally store the
stamped value and acknowledge to the sender. -/
def handle_put_global (st : NodeState) (sender : Addr) (body : PutBody) :
    Except String (NodeState × List OutMsg) :=
  match body.versioned_value with
  | none => .error "KeyError"
  | some vv =>
    .ok ({ st with storage := dictSet st.storage body.key vv },
         [OutMsg.send sender (Msg.putGlobalResp body)])

/-- The `put global resp` branch (node.py lines 251-258): count the
acknowledgement; on reaching the quorum the source executes
`ctx.send(Message('put for coordinator resp', self.storage[key][0]),
self.waiting_put_addr[op_key])` — but `op_key` is an **unbound name**, so the
branch raises `NameError` (after a `KeyError` if the coordinator has not
stored the key itself).  The increment of `waiting_put[key]` performed before
the quorum check is lost with the exception in this model; the source leaves
it behind, but either way no reply is ever sent. -/
def handle_put_global_resp (st : NodeState) (body : PutBody) :
    Except String (NodeState × List OutMsg) :=
  match dictGet st.waiting_put body.key with
  | none => .ok (st, [])
  | some c =>
    if c + 1 == body.quorum then
      match dictGet st.storage body.key with
      | none => .error "KeyError"
      | some _ => .error "NameError: name op_key is not defined"
    else
      .ok ({ st with waiting_put := dictSet st.waiting_put body.key (c + 1) }, [])

/-- The `put for coordinator resp` branch (node.py lines 259-261): relay the
new version's metadata to the client as a `PUT_RESP`. -/
def handle_put_for_coordinator_resp (st : NodeState) (clock : VectorClock) :
    NodeState × List OutMsg :=
  (st, [OutMsg.sendLocal (Msg.putResp clock)])

/- ### Concrete inputs used by the claim theorems
`bytes_to_float "x" = 4949498559009812781/2^64 ≈ 0.26831...`, so the ring
positions 27/100, 28/100, 29/100 all lie strictly above the hash of `"x"`. -/

/-- A fixed point set in which owner `"A"` holds two ring points that are the
first two met walking clockwise from the hash of key `"x"`. -/
def pts_c3 : List Point :=
  [(mkRat 27 100, "A"), (mkRat 28 100, "A"), (mkRat 29 100, "B")]

/-- A coordinator state with one outstanding PUT on key `"x"`: one
acknowledgement counted, entry node `"e1"`, the stamped value already stored
locally. -/
def st_c1 : NodeState :=
  { points := [], storage := [("x", ([("A", 1)], "v2"))], my_addr := "A",
    addr_to_name := [], vector_clock := [("A", 1)], waiting_get_keys := [],
    waiting_get_keys_quorum := [], waiting_put := [("x", 1)],
    waiting_put_addr := [("x", "e1")] }

/-- The body of the write acknowledgement that completes the quorum of 2. -/
def body_c1 : PutBody :=
  { key := "x", value := "v2", metadata := none, quorum := 2,
    versioned_value := some ([("A", 1)], "v2") }

/-- A coordinator state with an outstanding PUT on key `"x"` (one ack counted,
entry node `"e1"`) at the moment a second PUT on the same key is admitted. -/
def st_c4 : NodeState :=
  { points := pts_c3, storage := [], my_addr := "A", addr_to_name := [],
    vector_clock := [("A", 1)], waiting_get_keys := [],
    waiting_get_keys_quorum := [], waiting_put := [("x", 1)],
    waiting_put_addr := [("x", "e1")] }

/-- The second PUT on key `"x"`, forwarded by a different entry node `"e2"`. -/
def body_c4 : PutBody :=
  { key := "x", value := "v2", metadata := none, quorum := 2,
    versioned_value := none }

/-- The body of a PUT admitted while the ring is still empty. -/
def body_c8 : PutBody :=
  { key := "x", value := "v", metadata := none, quorum := 2,
    versioned_value := none }

/-- A freshly constructed node: in particular its ring point set is empty. -/
def st_c8 : NodeState :=
  { points := [], storage := [], my_addr := "", addr_to_name := [],
    vector_clock := [], waiting_get_keys := [], waiting_get_keys_quorum := [],
    waiting_put := [], waiting_put_addr := [] }

/-- An entry-node state with a pending GET on key `"x"` needing one more reply
to reach its read quorum of 1. -/
def st_c10 : NodeState :=
  { points := [], storage := [], my_addr := "A", addr_to_name := [],
    vector_clock := [], waiting_get_keys := [("x", [])],
    waiting_get_keys_quorum := [("x", 1)], waiting_put := [],
    waiting_put_addr := [] }

/-- `st_c10` after its GET completes: the pending entries are discarded. -/
def st_c10_after : NodeState :=
  { points := [], storage := [], my_addr := "A", addr_to_name := [],
    vector_clock := [], waiting_get_keys := [], waiting_get_keys_quorum := [],
    waiting_put := [], waiting_put_addr := [] }

/-- Clock stamped by the first PUT in the spec §8 scenario (coordinator `"A"`,
three members). -/
def clock_v1 : VectorClock := [("A", 1), ("B", 0), ("C", 0)]

/-- Clock stamped by the second PUT, issued with `clock_v1` as prior metadata:
it strictly dominates `clock_v1` pointwise. -/
def clock_v2 : VectorClock := [("A", 2), ("B", 0), ("C", 0)]

/- ### Helper lemmas -/

theorem all_congr_mem {α : Type} {p q : α → Bool} :
    ∀ {l : List α}, (∀ x ∈ l, p x = q x) → l.all p = l.all q
  | [], _ => rfl
  | a :: l, h => by
    simp only [List.all_cons]
    rw [h a (List.mem_cons_self a l), all_congr_mem (fun x hx => h x (List.mem_cons_of_mem a hx))]


theorem dictGet_cons {β : Type} (a : String) (w : β) (d : List (String × β)) (b : String) :
    dictGet ((a, w) :: d) b = if a = b then some w else dictGet d b := by
  by_cases h : a = b
  · simp [dictGet, List.find?_cons_of_pos, h]
  · rw [if_neg h]
    simp only [dictGet]
    rw [List.find?_cons_of_neg _ (by simpa using h)]

theorem dictGet_map_ne {β : Type} (k b : String) (v : β) (hbk : b ≠ k) :
    ∀ d : List (String × β),
      dictGet (d.map (fun p => if p.1 == k then (k, v) else p)) b = dictGet d b
  | [] => rfl
  | (a, w) :: d => by
    by_cases hak : a = k
    · rw [List.map_cons, if_pos (by simp [hak]), dictGet_cons,
        if_neg (fun (h : k = b) => hbk h.symm), dictGet_cons,
        if_neg (fun (h : a = b) => hbk (h ▸ hak))]
      exact dictGet_map_ne k b v hbk d
    · rw [List.map_cons, if_neg (by simpa using hak), dictGet_cons, dictGet_cons]
      by_cases hab : a = b
      · rw [if_pos hab, if_pos hab]
      · rw [if_neg hab, if_neg hab]
        exact dictGet_map_ne k b v hbk d

theorem dictGet_map_self {β : Type} (k : String) (v : β) :
    ∀ d : List (String × β), (dictGet d k).isSome →
      dictGet (d.map (fun p => if p.1 == k then (k, v) else p)) k = some v
  | [], h => by simp [dictGet] at h
  | (a, w) :: d, h => by
    by_cases hak : a = k
    · subst hak
      rw [List.map_cons, if_pos (beq_self_eq_true a), dictGet_cons, if_pos rfl]
    · rw [List.map_cons, if_neg (by simpa using hak), dictGet_cons, if_neg hak]
      rw [dictGet_cons, if_neg hak] at h
      exact dictGet_map_self k v d h

theorem dictGet_append_ne {β : Type} (k b : String) (v : β) (hbk : b ≠ k) :
    ∀ d : List (String × β), dictGet (d ++ [(k, v)]) b = dictGet d b
  | [] => by
    rw [List.nil_append, dictGet_cons, if_neg (fun h => hbk h.symm)]
  | (a, w) :: d => by
    rw [List.cons_append, dictGet_cons, dictGet_cons]
    by_cases hab : a = b
    · rw [if_pos hab, if_pos hab]
    · rw [if_neg hab, if_neg hab]
      exact dictGet_append_ne k b v hbk d

theorem dictGet_append_self {β : Type} (k : String) (v : β) :
    ∀ d : List (String × β), dictGet d k = none →
      dictGet (d ++ [(k, v)]) k = some v
  | [], _ => by simp [dictGet_cons]
  | (a, w) :: d, h => by
    rw [dictGet_cons] at h
    by_cases hak : a = k
    · rw [if_pos hak] at h; cases h
    · rw [if_neg hak] at h
      rw [List.cons_append, dictGet_cons, if_neg hak]
      exact dictGet_append_self k v d h

theorem dictGet_dictSet {β : Type} (d : List (String × β)) (k b : String) (v : β) :
    dictGet (dictSet d k v) b = if b = k then some v else dictGet d b := by
  unfold dictSet
  have hiff : ((d.find? fun p => p.1 == k).isSome) = (dictGet d k).isSome := by
    simp [dictGet, Option.isSome_map']
  by_cases hfind : ((d.find? fun p => p.1 == k).isSome : Prop)
  · rw [if_pos hfind]
    by_cases hbk : b = k
    · subst hbk
      rw [if_pos rfl]
      exact dictGet_map_self b v d (hiff ▸ hfind)
    · rw [if_neg hbk]
      exact dictGet_map_ne k b v hbk d
  · rw [if_neg hfind]
    have hnone : dictGet d k = none := by
      cases h : dictGet d k
      · rfl
      · rw [hiff, h] at hfind; exact absurd rfl hfind
    by_cases hbk : b = k
    · subst hbk
      rw [if_pos rfl]
      exact dictGet_append_self b v d hnone
    · rw [if_neg hbk]
      exact dictGet_append_ne k b v hbk d

theorem take_length_takeWhile {α : Type} (p : α → Bool) :
    ∀ l : List α, l.take (l.takeWhile p).length = l.takeWhile p
  | [] => rfl
  | a :: l => by
    cases h : p a
    · simp [List.takeWhile_cons, h]
    · simp [List.takeWhile_cons, h, take_length_takeWhile p l]

theorem drop_length_takeWhile {α : Type} (p : α → Bool) :
    ∀ l : List α, l.drop (l.takeWhile p).length = l.dropWhile p
  | [] => rfl
  | a :: l => by
    cases h : p a
    · simp [List.takeWhile_cons, List.dropWhile_cons, h]
    · simp [List.takeWhile_cons, List.dropWhile_cons, h, drop_length_takeWhile p l]

theorem mem_dropWhile_pos (h : ℚ) :
    ∀ l : List Point, l.Pairwise (fun a b => a.1 ≤ b.1) →
      ∀ x ∈ l.dropWhile (fun pt => decide (pt.1 ≤ h)), h < x.1
  | [], _, x, hx => by simp [List.dropWhile] at hx
  | a :: l, hp, x, hx => by
    rw [List.pairwise_cons] at hp
    by_cases ha : a.1 ≤ h
    · rw [List.dropWhile_cons, if_pos (by simpa using ha)] at hx
      exact mem_dropWhile_pos h l hp.2 x hx
    · rw [List.dropWhile_cons, if_neg (by simpa using ha)] at hx
      rcases List.mem_cons.mp hx with rfl | hx
      · exact lt_of_not_le ha
      · exact lt_of_lt_of_le (lt_of_not_le ha) (hp.1 x hx)

theorem pointLe_fst_le {a b : Point} (h : pointLe a b) : a.1 ≤ b.1 := by
  rcases h with h | ⟨h, _⟩
  · exact le_of_lt h
  · exact le_of_eq h

theorem mem_merge_points (P Q : List Point) (x : Point) :
    x ∈ merge_points P Q ↔ x ∈ P ∨ x ∈ Q := by
  unfold merge_points
  rw [List.mem_insertionSort, List.mem_dedup, List.mem_append]

theorem nodup_merge_points (P Q : List Point) : (merge_points P Q).Nodup :=
  (List.perm_insertionSort pointLe _).nodup_iff.mpr (List.nodup_dedup _)

theorem sorted_merge_points (P Q : List Point) :
    (merge_points P Q).Sorted pointLe :=
  List.sorted_insertionSort pointLe _

theorem sortdedup_eq_of_mem_ext {L M : List Point} (h : ∀ x, x ∈ L ↔ x ∈ M) :
    List.insertionSort pointLe L.dedup = List.insertionSort pointLe M.dedup := by
  refine List.eq_of_perm_of_sorted ?_ (List.sorted_insertionSort _ _)
    (List.sorted_insertionSort _ _)
  refine ((List.perm_insertionSort _ _).trans ?_).trans
    (List.perm_insertionSort _ _).symm
  exact (List.perm_ext_iff_of_nodup (List.nodup_dedup _) (List.nodup_dedup _)).mpr
    (fun a => by rw [List.mem_dedup, List.mem_dedup]; exact h a)

theorem merge_points_eq_of_mem_ext {P Q R S : List Point}
    (h : ∀ x, (x ∈ P ∨ x ∈ Q) ↔ (x ∈ R ∨ x ∈ S)) :
    merge_points P Q = merge_points R S :=
  sortdedup_eq_of_mem_ext (fun x => by
    rw [List.mem_append, List.mem_append]; exact h x)

theorem resolve_conflicts_length {vvs r : List VersionedValue}
    (h : resolve_conflicts vvs = Except.ok r) : r.length ≤ 1 := by
  unfold resolve_conflicts at h
  by_cases h0 : (vvs.length == 0) = true
  · rw [if_pos h0] at h
    cases h
    exact Nat.zero_le 1
  · rw [if_neg h0] at h
    cases hm : get_max_vector_clock (vvs.map Prod.fst) with
    | error e => rw [hm] at h; cases h
    | ok m =>
      rw [hm] at h
      simp only [] at h
      cases hh : (vvs.filter fun v => pyDictEq v.1 m).head? with
      | none => rw [hh] at h; cases h
      | some v =>
        rw [hh] at h
        cases h
        exact le_refl 1

theorem resolve_conflicts_length_pos {vvs r : List VersionedValue}
    (hne : vvs ≠ []) (h : resolve_conflicts vvs = Except.ok r) : r.length = 1 := by
  unfold resolve_conflicts at h
  rw [if_neg (by simpa using hne)] at h
  cases hm : get_max_vector_clock (vvs.map Prod.fst) with
  | error e => rw [hm] at h; cases h
  | ok m =>
    rw [hm] at h
    simp only [] at h
    cases hh : (vvs.filter fun v => pyDictEq v.1 m).head? with
    | none => rw [hh] at h; cases h
    | some v => rw [hh] at h; cases h; rfl

theorem cmp_vector_clocks_ok_iff (v1 v2 : VectorClock) :
    (cmp_vector_clocks v1 v2).toOption.isSome = (v1.length == v2.length) := by
  unfold cmp_vector_clocks
  by_cases h : v1.length = v2.length
  · rw [if_neg (by simpa using h)]
    rw [show (v1.length == v2.length) = true from by simpa using h]
    split
    · rfl
    · split <;> rfl
  · rw [if_pos (by simpa using h)]
    rw [show (v1.length == v2.length) = false from by simpa using h]
    rfl

theorem update_my_vector_clock_ok :
    ∀ (other self : VectorClock),
      (update_my_vector_clock self other).toOption.isSome =
        other.all (fun p => (dictGet self p.1).isSome)
  | [], self => rfl
  | (a, c) :: rest, self => by
    rw [List.all_cons]
    unfold update_my_vector_clock
    cases h : dictGet self a with
    | none => rfl
    | some w =>
      rw [update_my_vector_clock_ok rest (dictSet self a (max w c))]
      simp only [h, Option.isSome_some, Bool.true_and]
      apply all_congr_mem
      intro p _
      rw [dictGet_dictSet]
      by_cases hpa : p.1 = a
      · rw [if_pos hpa, hpa, h]; rfl
      · rw [if_neg hpa]

theorem wordBytes_lt (w : Nat) : ∀ b ∈ wordBytes w, b < 256 := by
  intro b hb
  simp only [wordBytes, List.mem_cons, List.not_mem_nil, or_false] at hb
  rcases hb with h | h | h | h <;> subst h <;> exact Nat.mod_lt _ (by norm_num)

theorem sha256Digest_bytes_lt (m : List Nat) : ∀ b ∈ sha256Digest m, b < 256 := by
  intro b hb
  unfold sha256Digest at hb
  simp only [List.mem_flatten, List.mem_map] at hb
  obtain ⟨l, ⟨w, _, rfl⟩, hbl⟩ := hb
  exact wordBytes_lt w b hbl

theorem sha256Digest_length (m : List Nat) : (sha256Digest m).length = 32 := by
  simp [sha256Digest, wordBytes]

theorem leInterp_lt : ∀ bs : List Nat, (∀ b ∈ bs, b < 256) →
    leInterp bs < 256 ^ bs.length
  | [], _ => by simp [leInterp]
  | b :: t, h => by
    have ht := leInterp_lt t (fun x hx => h x (List.mem_cons_of_mem b hx))
    have hb := h b (List.mem_cons_self b t)
    show leInterp t * 256 + b < 256 ^ (t.length + 1)
    rw [pow_succ 256 t.length]
    omega

theorem bytes_to_float_eq_div (key : String) :
    bytes_to_float key = (leInterp ((sha256Str key).take 8) : ℚ) / 2 ^ 64 := by
  unfold bytes_to_float
  rw [Rat.mkRat_eq_div]
  push_cast
  norm_num

theorem bytes_to_float_lt_one (key : String) : bytes_to_float key < 1 := by
  rw [bytes_to_float_eq_div, div_lt_one (by positivity)]
  have hlen : ((sha256Str key).take 8).length = 8 := by
    rw [List.length_take, sha256Str, sha256Digest_length]
    decide
  have hlt : leInterp ((sha256Str key).take 8) < 256 ^ 8 := by
    have := leInterp_lt ((sha256Str key).take 8)
      (fun b hb => sha256Digest_bytes_lt _ b (List.mem_of_mem_take hb))
    rwa [hlen] at this
  calc (leInterp ((sha256Str key).take 8) : ℚ)
      < ((256 ^ 8 : Nat) : ℚ) := by exact_mod_cast hlt
    _ = 2 ^ 64 := by norm_num

theorem bytes_to_float_nonneg (key : String) : 0 ≤ bytes_to_float key := by
  rw [bytes_to_float_eq_div]
  positivity

/- ### Claim theorems -/

/-- Sanity anchor for the SHA-256 embedding: the digest of `"x"` equals
`hashlib.sha256(b"x").digest()`. -/
theorem sha256Str_x :
    sha256Str "x" =
      [45, 113, 22, 66, 183, 38, 176, 68, 1, 98, 124, 169, 251, 172, 50, 245,
       200, 83, 15, 177, 144, 60, 196, 219, 2, 37, 135, 23, 146, 26, 72, 129] := by
  decide

/-- Sanity anchor: the FIPS 180-4 test vector for `"abc"`. -/
theorem sha256Str_abc :
    sha256Str "abc" =
      [186, 120, 22, 191, 143, 1, 207, 234, 65, 65, 64, 222, 93, 174, 34, 35,
       176, 3, 97, 163, 150, 23, 122, 156, 180, 16, 255, 97, 242, 0, 21, 173] := by
  decide

/-- **C1** (code_bug): per the claim, on reaching `writeQuorum` the coordinator
should send the newly stamped clock back to the entry node (which would relay
a `PUT_RESP`).  Instead, with one acknowledgement already counted and quorum 2,
the next `put global resp` raises `NameError`: node.py line 257 reads
`self.waiting_put_addr[op_key]` but `op_key` is an unbound name.  No reply is
ever sent to the entry node or the client. -/
theorem c1_put_quorum_raises_name_error :
    handle_put_global_resp st_c1 body_c1 =
      Except.error "NameError: name op_key is not defined" := rfl

/-- **C2** (code_bug): `cmp_vector_clocks` is not the per-address pointwise
comparison.  For `a = {A:0, B:0}` and `b = {A:5, B:9}` the spec classifies
`a` BEFORE `b` (`vc_before_spec` is `true`: every counter ≤ and two strict),
but the source sorts each clock's items by counter, projects the **addresses**,
and compares those sequences — both give `[A, B]`, so it returns `0` (EQUAL). -/
theorem c2_cmp_is_not_pointwise :
    cmp_vector_clocks [("A", 0), ("B", 0)] [("A", 5), ("B", 9)] = Except.ok 0 ∧
    vc_before_spec [("A", 0), ("B", 0)] [("A", 5), ("B", 9)] = true :=
  ⟨rfl, rfl⟩

/-- **C3** counterexample: the replica list is not duplicate-free.  With points
at 27/100, 28/100, 29/100 owned by `A`, `A`, `B`, and key `"x"` (whose hash
position ≈ 0.2683 lies below 27/100), the list the call sites use —
`get_replicas_addrs(key)[:NUM_REPLICAS]` — is `[A, A, B]`: the owner `A` is
counted twice rather than skipped, and only 2 distinct owners are reached. -/
theorem c3_replicas_not_distinct :
    (get_replicas_addrs "x" pts_c3).take NUM_REPLICAS = ["A", "A", "B"] ∧
    ¬ ((get_replicas_addrs "x" pts_c3).take NUM_REPLICAS).Nodup := by
  exact ⟨by decide, by decide⟩

/-- **C3** (amended): `get_replicas_addrs` returns the owners of **all** ring
points (call sites slice off the first `NUM_REPLICAS`), in the order met
walking the ring clockwise from the first point whose position is strictly
greater than the key's hash, wrapping past the end; owners are **not**
deduplicated.  For a position-sorted point list: the rotation point splits the
list into the points at positions `≤` the hash (moved to the back) and those
strictly greater (walked first). -/
theorem c3_rotated_walk (key : Key) (pts : List Point)
    (hs : pts.Pairwise (fun a b => a.1 ≤ b.1)) :
    get_replicas_addrs key pts =
      ((pts.drop (bisect_right (pts.map Prod.fst) (bytes_to_float key)) ++
        pts.take (bisect_right (pts.map Prod.fst) (bytes_to_float key))).map
        Prod.snd) ∧
    (∀ p ∈ pts.take (bisect_right (pts.map Prod.fst) (bytes_to_float key)),
        p.1 ≤ bytes_to_float key) ∧
    (∀ p ∈ pts.drop (bisect_right (pts.map Prod.fst) (bytes_to_float key)),
        bytes_to_float key < p.1) := by
  have hi : bisect_right (pts.map Prod.fst) (bytes_to_float key) =
      (pts.takeWhile (fun pt => decide (pt.1 ≤ bytes_to_float key))).length := by
    unfold bisect_right
    rw [List.takeWhile_map, List.length_map]
    rfl
  refine ⟨rfl, ?_, ?_⟩
  · intro p hp
    rw [hi, take_length_takeWhile] at hp
    simpa using List.mem_takeWhile_imp hp
  · intro p hp
    rw [hi, drop_length_takeWhile] at hp
    exact mem_dropWhile_pos (bytes_to_float key) pts hs p hp

/-- Witness for `c3_rotated_walk` at key `"x"` and the concrete sorted point
set `pts_c3`. -/
theorem c3_rotated_walk_witness :
    pts_c3.Pairwise (fun a b : Point => a.1 ≤ b.1) ∧
    (get_replicas_addrs "x" pts_c3 =
      ((pts_c3.drop (bisect_right (pts_c3.map Prod.fst) (bytes_to_float "x")) ++
        pts_c3.take (bisect_right (pts_c3.map Prod.fst) (bytes_to_float "x"))).map
        Prod.snd) ∧
     (∀ p ∈ pts_c3.take (bisect_right (pts_c3.map Prod.fst) (bytes_to_float "x")),
         p.1 ≤ bytes_to_float "x") ∧
     (∀ p ∈ pts_c3.drop (bisect_right (pts_c3.map Prod.fst) (bytes_to_float "x")),
         bytes_to_float "x" < p.1)) :=
  ⟨by decide, c3_rotated_walk "x" pts_c3 (by decide)⟩

/-- **C4** counterexample: the pending-PUT tables are keyed by the bare key.
Admitting a second PUT on key `"x"` (entry node `"e2"`) while an earlier one is
outstanding (ack count 1, entry node `"e1"`) resets the acknowledgement count
to 0 and replaces the reply-to address — the earlier request's bookkeeping is
clobbered, not left unchanged. -/
theorem c4_second_put_clobbers_pending :
    dictGet st_c4.waiting_put "x" = some 1 ∧
    dictGet st_c4.waiting_put_addr "x" = some "e1" ∧
    (handle_put_for_coordinator st_c4 "e2" body_c4).toOption.map
        (fun r => (dictGet r.1.waiting_put "x", dictGet r.1.waiting_put_addr "x")) =
      some (some 0, some "e2") :=
  ⟨rfl, rfl, rfl⟩

/-- **C4** (amended): pending PUT state is keyed by the key string alone, with
no request identifier: every successful `put for coordinator` admission leaves
`waiting_put[key] = 0` and `waiting_put_addr[key] = sender`, overwriting
whatever an outstanding request on the same key had stored there. -/
theorem c4_key_only_bookkeeping (st : NodeState) (sender : Addr)
    (body : PutBody) (res : NodeState × List OutMsg)
    (h : handle_put_for_coordinator st sender body = Except.ok res) :
    dictGet res.1.waiting_put body.key = some 0 ∧
    dictGet res.1.waiting_put_addr body.key = some sender := by
  unfold handle_put_for_coordinator at h
  cases hvc : (match body.metadata with
               | some md => update_my_vector_clock st.vector_clock md
               | none => Except.ok st.vector_clock) with
  | error e => rw [hvc] at h; cases h
  | ok vc1 =>
    rw [hvc] at h
    simp only [] at h
    cases hc : dictGet vc1 st.my_addr with
    | none => rw [hc] at h; cases h
    | some c =>
      rw [hc] at h
      simp only [] at h
      cases h
      constructor
      · rw [dictGet_dictSet]
        simp
      · rw [dictGet_dictSet]
        simp

/-- The concrete result of admitting the second PUT of the C4 scenario. -/
def st_c4_res : NodeState × List OutMsg :=
  (handle_put_for_coordinator st_c4 "e2" body_c4).toOption.getD (st_c8, [])

/-- Witness for `c4_key_only_bookkeeping` at the concrete C4 scenario. -/
theorem c4_key_only_bookkeeping_witness :
    dictGet st_c4_res.1.waiting_put "x" = some 0 ∧
    dictGet st_c4_res.1.waiting_put_addr "x" = some "e2" :=
  c4_key_only_bookkeeping st_c4 "e2" body_c4 st_c4_res rfl

/-- **C5** (code_bug): in the spec §8 scenario (`N = 3`, `W = R = 2`) the
second PUT's clock `clock_v2` strictly dominates `clock_v1` pointwise
(`vc_before_spec`), yet the source comparator reports the clocks EQUAL (their
counter-sorted address sequences coincide), so when the two GET quorum replies
carry both versions, `resolve_conflicts` keeps the **stale** `"v1"` — the GET
does not return the completed PUT's value.  (Independently the PUT
acknowledgement path can never complete at all — see C1.) -/
theorem c5_stale_value_survives_quorum :
    vc_before_spec clock_v1 clock_v2 = true ∧
    cmp_vector_clocks clock_v1 clock_v2 = Except.ok 0 ∧
    resolve_conflicts [(clock_v1, "v1"), (clock_v2, "v2")] =
      Except.ok [(clock_v1, "v1")] :=
  ⟨rfl, rfl, rfl⟩

/-- **C6** counterexample: the hash position is **not** computed from the
big-endian reading of the digest prefix: for key `"x"` the source's value
(native little-endian `unpack('L', ...)`) differs from the spec's big-endian
normalization. -/
theorem c6_not_big_endian : bytes_to_float "x" ≠ bytes_to_float_spec "x" := by
  decide

/-- **C6** (amended): `bytes_to_float` is a deterministic total map from any
key string into `[0, 1)`, computed by dividing the 8-byte digest prefix by
`2^64` — but the prefix is read **native little-endian**, not big-endian. -/
theorem c6_hash_position_range (key : Key) :
    bytes_to_float key = (leInterp ((sha256Str key).take 8) : ℚ) / 2 ^ 64 ∧
    0 ≤ bytes_to_float key ∧ bytes_to_float key < 1 :=
  ⟨bytes_to_float_eq_div key, bytes_to_float_nonneg key,
   bytes_to_float_lt_one key⟩

/-- **C7** counterexample: comparison of clocks with mismatched address sets
does not treat missing entries as 0 — it trips the equal-length `assert`; and
an incoming clock naming an address unknown to the node trips `assert False`
(a crash), rather than surfacing an explicit protocol error. -/
theorem c7_mismatched_clocks_crash :
    cmp_vector_clocks [("A", 0)] [("A", 0), ("B", 0)] =
      Except.error "AssertionError" ∧
    update_my_vector_clock [("A", 0)] [("B", 1)] =
      Except.error "AssertionError: we missed a join" :=
  ⟨rfl, rfl⟩

/-- **C7** (amended): the operations are **partial**: `cmp_vector_clocks`
succeeds exactly when the two clocks have equally many entries, and
`update_my_vector_clock` succeeds exactly when every incoming address is
already present in the local clock; each raises `AssertionError` otherwise. -/
theorem c7_totality_boundary :
    (∀ v1 v2 : VectorClock,
        (cmp_vector_clocks v1 v2).toOption.isSome = (v1.length == v2.length)) ∧
    (∀ self_clock other : VectorClock,
        (update_my_vector_clock self_clock other).toOption.isSome =
          other.all (fun p => (dictGet self_clock p.1).isSome)) :=
  ⟨cmp_vector_clocks_ok_iff,
   fun self_clock other => update_my_vector_clock_ok other self_clock⟩

/-- **C8** counterexample: on a node with an empty ring (before any member has
joined), a PUT admission faults with `IndexError` on `[0]` instead of
returning an explicit configuration-error reply, and a LOOKUP silently replies
with an empty replica list. -/
theorem c8_empty_ring_faults :
    handle_PUT st_c8 body_c8 =
      Except.error "IndexError: list index out of range" ∧
    handle_LOOKUP st_c8 "x" =
      Except.ok (st_c8, [OutMsg.sendLocal (Msg.lookupResp [])]) :=
  ⟨rfl, rfl⟩

/-- **C8** (amended): with an empty point set, every PUT admission raises
`IndexError` (there is no configuration-error reply anywhere in the handler),
and every LOOKUP replies with an empty replica list. -/
theorem c8_empty_ring (st : NodeState) (key : Key) (body : PutBody)
    (hp : st.points = []) :
    handle_PUT st body = Except.error "IndexError: list index out of range" ∧
    handle_LOOKUP st key =
      Except.ok (st, [OutMsg.sendLocal (Msg.lookupResp [])]) := by
  constructor
  · unfold handle_PUT get_replicas_addrs
    rw [hp]
    rfl
  · unfold handle_LOOKUP get_replicas_addrs
    rw [hp]
    rfl

/-- Witness for `c8_empty_ring` at the freshly constructed node `st_c8`. -/
theorem c8_empty_ring_witness :
    st_c8.points = [] ∧
    (handle_PUT st_c8 body_c8 =
        Except.error "IndexError: list index out of range" ∧
     handle_LOOKUP st_c8 "x" =
        Except.ok (st_c8, [OutMsg.sendLocal (Msg.lookupResp [])])) :=
  ⟨rfl, c8_empty_ring st_c8 "x" body_c8 rfl⟩

/-- **C9** (confirmed): `merge_points` produces the deduplicated union of the
local and remote point lists, sorted ascending by position; it is idempotent
(merging the same remote points again changes nothing) and the order in which
remote point sets are merged does not affect the result. -/
theorem c9_merge_points_laws (L P Q : List Point) :
    (∀ x, x ∈ merge_points P Q ↔ x ∈ P ∨ x ∈ Q) ∧
    (merge_points P Q).Nodup ∧
    (merge_points P Q).Sorted (fun a b : Point => a.1 ≤ b.1) ∧
    merge_points (merge_points P Q) Q = merge_points P Q ∧
    merge_points P Q = merge_points Q P ∧
    merge_points (merge_points L P) Q = merge_points (merge_points L Q) P := by
  refine ⟨mem_merge_points P Q, nodup_merge_points P Q, ?_, ?_, ?_, ?_⟩
  · exact List.Pairwise.imp (fun h => pointLe_fst_le h) (sorted_merge_points P Q)
  · apply merge_points_eq_of_mem_ext
    intro x
    rw [mem_merge_points]
    tauto
  · apply merge_points_eq_of_mem_ext
    intro x
    tauto
  · apply merge_points_eq_of_mem_ext
    intro x
    rw [mem_merge_points, mem_merge_points]
    tauto

/-- **C10** (confirmed): `resolve_conflicts` returns at most one versioned
value whenever it succeeds, and consequently every `GET_RESP` a completed GET
emits carries `values` and `metadata` lists of length at most 1 — the client
never receives sibling versions. -/
theorem c10_single_version :
    (∀ (vvs r : List VersionedValue),
        resolve_conflicts vvs = Except.ok r → r.length ≤ 1) ∧
    (∀ (st : NodeState) (key : Key) (vv : Option VersionedValue)
        (st2 : NodeState) (out : List OutMsg) (vs : List Value)
        (md : List VectorClock),
        handle_get_global_resp st key vv = Except.ok (st2, out) →
        OutMsg.sendLocal (Msg.getResp vs md) ∈ out →
        vs.length ≤ 1 ∧ md.length ≤ 1) := by
  constructor
  · exact fun vvs r h => resolve_conflicts_length h
  · intro st key vv st2 out vs md h hm
    unfold handle_get_global_resp at h
    cases hw : dictGet st.waiting_get_keys key with
    | none =>
      rw [hw] at h
      simp only [] at h
      cases h
      simp at hm
    | some vvs =>
      rw [hw] at h
      simp only [] at h
      cases hq : dictGet st.waiting_get_keys_quorum key with
      | none => rw [hq] at h; cases h
      | some quorum =>
        rw [hq] at h
        simp only [] at h
        by_cases hlen : (((vvs ++ [vv]).length == quorum) : Prop)
        · rw [if_pos hlen] at h
          cases hr : resolve_conflicts (vvs ++ [vv]).reduceOption with
          | error e => rw [hr] at h; cases h
          | ok resolved =>
            rw [hr] at h
            simp only [] at h
            cases h
            have heq := List.mem_singleton.mp hm
            injection heq with heq
            injection heq with h1 h2
            have hl := resolve_conflicts_length hr
            subst h1
            subst h2
            simp only [List.length_map]
            exact ⟨hl, hl⟩
        · rw [if_neg hlen] at h
          cases h
          simp at hm

/-- Witness for `c10_single_version` at a GET on key `"x"` with read quorum 1
that completes with the single stored version `([("A", 1)], "v")`. -/
theorem c10_single_version_witness :
    (["v"] : List Value).length ≤ 1 ∧
    ([[("A", 1)]] : List VectorClock).length ≤ 1 :=
  c10_single_version.2 st_c10 "x" (some ([("A", 1)], "v")) st_c10_after
    [OutMsg.sendLocal (Msg.getResp ["v"] [[("A", 1)]])] ["v"] [[("A", 1)]]
    rfl (List.mem_singleton.mpr rfl)
